import Mathlib

set_option linter.unusedVariables false

/-!
Shallow embedding of the news_analysis repository core:

* `news_sources.py` — URL/content deduplication (`NewsAggregator._is_duplicate`,
  `_normalize_url`, `_generate_content_hash`, `_hash_similarity`,
  `_load_fetched_urls`) and merge/sort/truncate (`get_all_news`);
* `vector_db.py` — hybrid semantic+lexical search (`NewsVectorDB.hybrid_search`,
  `semantic_search`);
* `news.py` — the `News` record constructor;
* `news_analysis_chain.py` — `analyze_news`;
* `firebase_store.py` — `FirebaseClient.save_entity_relationship`.

Python floats are modelled by `ℚ` (every arithmetic step the claims rely on is
order-structural), Python dicts by association lists that preserve insertion
order, and Python exceptions by `Except`/`Option`.  External collaborators
(Chroma vector store, Firestore, the LLM call, `datetime` parsing) are modelled
as explicit inputs; `hashlib.sha256(...).hexdigest()` is embedded in full below.
-/

/-! ### Model of `hashlib.sha256(content.encode()).hexdigest()` (FIPS 180-4)
32-bit words are `Nat` reduced mod `2^32`; the byte stream is the UTF-8
encoding of the string, as `str.encode()` produces. -/

def m32 (n : Nat) : Nat := n % 4294967296

def rotr32 (n w : Nat) : Nat := m32 ((w >>> n) ||| (w <<< (32 - n)))

def charUtf8 (c : Char) : List Nat :=
  let n := c.toNat
  if n < 128 then [n]
  else if n < 2048 then [192 ||| (n >>> 6), 128 ||| (n &&& 63)]
  else if n < 65536 then
    [224 ||| (n >>> 12), 128 ||| ((n >>> 6) &&& 63), 128 ||| (n &&& 63)]
  else
    [240 ||| (n >>> 18), 128 ||| ((n >>> 12) &&& 63), 128 ||| ((n >>> 6) &&& 63),
     128 ||| (n &&& 63)]

def utf8Bytes (s : String) : List Nat := (s.toList.map charUtf8).flatten

def beBytes8 (n : Nat) : List Nat :=
  [(n >>> 56) &&& 255, (n >>> 48) &&& 255, (n >>> 40) &&& 255, (n >>> 32) &&& 255,
   (n >>> 24) &&& 255, (n >>> 16) &&& 255, (n >>> 8) &&& 255, n &&& 255]

def shaPad (msg : List Nat) : List Nat :=
  let pz := (64 - ((msg.length + 9) % 64)) % 64
  msg ++ [128] ++ List.replicate pz 0 ++ beBytes8 (8 * msg.length)

def chunks64 (l : List Nat) : List (List Nat) :=
  if h : l.length = 0 then []
  else l.take 64 :: chunks64 (l.drop 64)
termination_by l.length
decreasing_by simp [List.length_drop]; omega

def bytesToWords32 : List Nat → List Nat
  | b0 :: b1 :: b2 :: b3 :: rest =>
      ((b0 <<< 24) ||| (b1 <<< 16) ||| (b2 <<< 8) ||| b3) :: bytesToWords32 rest
  | _ => []

def shaCh (x y z : Nat) : Nat := (x &&& y) ^^^ ((x ^^^ 4294967295) &&& z)

def shaMaj (x y z : Nat) : Nat := (x &&& y) ^^^ (x &&& z) ^^^ (y &&& z)

def bigS0 (w : Nat) : Nat := rotr32 2 w ^^^ rotr32 13 w ^^^ rotr32 22 w

def bigS1 (w : Nat) : Nat := rotr32 6 w ^^^ rotr32 11 w ^^^ rotr32 25 w

def smallS0 (w : Nat) : Nat := rotr32 7 w ^^^ rotr32 18 w ^^^ (w >>> 3)

def smallS1 (w : Nat) : Nat := rotr32 17 w ^^^ rotr32 19 w ^^^ (w >>> 10)

def shaK : List Nat :=
  [1116352408, 1899447441, 3049323471, 3921009573,
   961987163, 1508970993, 2453635748, 2870763221,
   3624381080, 310598401, 607225278, 1426881987,
   1925078388, 2162078206, 2614888103, 3248222580,
   3835390401, 4022224774, 264347078, 604807628,
   770255983, 1249150122, 1555081692, 1996064986,
   2554220882, 2821834349, 2952996808, 3210313671,
   3336571891, 3584528711, 113926993, 338241895,
   666307205, 773529912, 1294757372, 1396182291,
   1695183700, 1986661051, 2177026350, 2456956037,
   2730485921, 2820302411, 3259730800, 3345764771,
   3516065817, 3600352804, 4094571909, 275423344,
   430227734, 506948616, 659060556, 883997877,
   958139571, 1322822218, 1537002063, 1747873779,
   1955562222, 2024104815, 2227730452, 2361852424,
   2428436474, 2756734187, 3204031479, 3329325298]

/-- Working state / digest of SHA-256: eight 32-bit words. -/
structure Sha8 where
  s0 : Nat
  s1 : Nat
  s2 : Nat
  s3 : Nat
  s4 : Nat
  s5 : Nat
  s6 : Nat
  s7 : Nat

def shaInit : Sha8 :=
  ⟨1779033703, 3144134277, 1013904242, 2773480762,
   1359893119, 2600822924, 528734635, 1541459225⟩

def extendSchedule (w : List Nat) : List Nat :=
  (List.range 48).foldl
    (fun acc _ =>
      let n := acc.length
      acc ++ [m32 (smallS1 (acc.getD (n - 2) 0) + acc.getD (n - 7) 0 +
                   smallS0 (acc.getD (n - 15) 0) + acc.getD (n - 16) 0)])
    w

def shaRound (w : List Nat) (st : Sha8) (i : Nat) : Sha8 :=
  let t1 := m32 (st.s7 + bigS1 st.s4 + shaCh st.s4 st.s5 st.s6 +
                 shaK.getD i 0 + w.getD i 0)
  let t2 := m32 (bigS0 st.s0 + shaMaj st.s0 st.s1 st.s2)
  ⟨m32 (t1 + t2), st.s0, st.s1, st.s2, m32 (st.s3 + t1), st.s4, st.s5, st.s6⟩

def shaCompress (st : Sha8) (chunk : List Nat) : Sha8 :=
  let w := extendSchedule (bytesToWords32 chunk)
  let r := (List.range 64).foldl (shaRound w) st
  ⟨m32 (st.s0 + r.s0), m32 (st.s1 + r.s1), m32 (st.s2 + r.s2), m32 (st.s3 + r.s3),
   m32 (st.s4 + r.s4), m32 (st.s5 + r.s5), m32 (st.s6 + r.s6), m32 (st.s7 + r.s7)⟩

def sha256Digest (msg : List Nat) : Sha8 :=
  (chunks64 (shaPad msg)).foldl shaCompress shaInit

def hexNib (n : Nat) : Char :=
  if n < 10 then Char.ofNat (48 + n) else Char.ofNat (87 + n)

def hex32 (w : Nat) : List Char :=
  [hexNib ((w >>> 28) &&& 15), hexNib ((w >>> 24) &&& 15),
   hexNib ((w >>> 20) &&& 15), hexNib ((w >>> 16) &&& 15),
   hexNib ((w >>> 12) &&& 15), hexNib ((w >>> 8) &&& 15),
   hexNib ((w >>> 4) &&& 15), hexNib (w &&& 15)]

/-- Model of `hashlib.sha256(s.encode()).hexdigest()`. -/
def sha256hex (s : String) : String :=
  let d := sha256Digest (utf8Bytes s)
  String.mk (hex32 d.s0 ++ hex32 d.s1 ++ hex32 d.s2 ++ hex32 d.s3 ++
             hex32 d.s4 ++ hex32 d.s5 ++ hex32 d.s6 ++ hex32 d.s7)

theorem sha256hex_length (s : String) : (sha256hex s).length = 64 := by
  simp [sha256hex, hex32, String.length]

/-! ### Model of `NewsAggregator._normalize_url` (news_sources.py lines 90-94)
The Python code is `urlparse(url)` followed by
`f"{parsed.scheme}://{parsed.netloc}{parsed.path}"`, i.e. query and fragment
are dropped.  `urlparse` is embedded for absolute URLs: an optional scheme
(letter-initial run of letter/digit/`+`/`-`/`.` before a `:`, lowercased), a
netloc when the remainder starts with `//` (up to the next `/`, `?` or `#`),
and the path up to the first `?` or `#` (the rarely used `;params` split of
the last path segment is not modelled). -/

def isSchemeChar (c : Char) : Bool := c.isAlphanum || c == '+' || c == '-' || c == '.'

def splitScheme (cs : List Char) : List Char × List Char :=
  match cs.findIdx? (· == ':') with
  | none => ([], cs)
  | some i =>
    match cs.take i with
    | [] => ([], cs)
    | h :: t =>
      if h.isAlpha && (h :: t).all isSchemeChar then
        ((h :: t).map Char.toLower, cs.drop (i + 1))
      else ([], cs)

def notPathEnd (c : Char) : Bool := !(c == '?' || c == '#')

def notNetlocEnd (c : Char) : Bool := !(c == '/' || c == '?' || c == '#')

def normalize_url (url : String) : String :=
  let cs := url.toList
  let (scheme, rest) := splitScheme cs
  let (netloc, rest2) :=
    if rest.take 2 = ['/', '/'] then
      let nl := (rest.drop 2).takeWhile notNetlocEnd
      (nl, (rest.drop 2).drop nl.length)
    else ([], rest)
  let path := rest2.takeWhile notPathEnd
  String.mk (scheme ++ [':', '/', '/'] ++ netloc ++ path)

/-! ### Model of the deduplication ledger (news_sources.py lines 43-130)
`NewsAggregator` keeps `self.fetched_urls` (a Python set of normalized URLs)
and `self.url_content_hash_map` (an insertion-ordered dict from normalized URL
to content hash).  Both are modelled by lists: the set by a list with
set-insert semantics, the dict by an association list whose
`dictInsert` replaces in place or appends, exactly as dict assignment does.
The Firestore side effect of `_save_processed_url` does not feed back into
`_is_duplicate` within a session and is elided. -/

structure DedupState where
  fetched_urls : List String
  url_content_hash_map : List (String × String)
deriving Repr, DecidableEq

/-- Python `set.add`. -/
def insertSet (x : String) (l : List String) : List String :=
  if x ∈ l then l else x :: l

/-- Python dict assignment `d[k] = v`: replace in place, else append. -/
def dictInsert (k v : String) : List (String × String) → List (String × String)
  | [] => [(k, v)]
  | (k', v') :: rest =>
      if k' = k then (k, v) :: rest else (k', v') :: dictInsert k v rest

/-- Model of `NewsAggregator._generate_content_hash` (lines 96-100). -/
def generate_content_hash (content : String) : String := sha256hex content

/-- Model of `NewsAggregator._hash_similarity` (lines 123-130): fraction of
positions with matching characters, `0` when the lengths differ.  (Python
would raise `ZeroDivisionError` on two empty strings; in the program both
arguments are 64-character sha256 hex digests, so that case is unreachable
and `ℚ`'s `0/0 = 0` is never exercised.) -/
def hashSimilarity (hash1 hash2 : String) : ℚ :=
  if hash1.length ≠ hash2.length then 0
  else ((hash1.toList.zip hash2.toList).countP (fun p => p.1 == p.2) : ℚ) /
       (hash1.length : ℚ)

/-- Model of `NewsAggregator._is_duplicate` (lines 102-121).  Returns the
Python boolean result together with the updated aggregator state. -/
def is_duplicate (s : DedupState) (url content : String) : Bool × DedupState :=
  let normalized_url := normalize_url url
  if normalized_url ∈ s.fetched_urls then (true, s)
  else
    let content_hash := generate_content_hash content
    if s.url_content_hash_map.any
        (fun p => decide ((9 : ℚ)/10 < hashSimilarity content_hash p.2)) then
      (true, s)
    else
      (false,
       { fetched_urls := insertSet normalized_url s.fetched_urls,
         url_content_hash_map :=
           dictInsert normalized_url content_hash s.url_content_hash_map })

/-- Model of `NewsAggregator._load_fetched_urls` (lines 61-72): each persisted
document may carry a `url` field (`doc.get("url")`); truthy values are added
to `fetched_urls` only — the content-hash map is never preloaded. -/
def load_fetched_urls (docs : List (Option String)) (s : DedupState) : DedupState :=
  docs.foldl
    (fun st u? =>
      match u? with
      | some u => if u ≠ "" then { st with fetched_urls := insertSet u st.fetched_urls } else st
      | none => st)
    s

/-- Folding a sequence of `_is_duplicate` calls over a state. -/
def dedupRun (s : DedupState) (calls : List (String × String)) : DedupState :=
  calls.foldl (fun st p => (is_duplicate st p.1 p.2).2) s

theorem mem_insertSet_self (x : String) (l : List String) : x ∈ insertSet x l := by
  unfold insertSet
  split
  · assumption
  · exact List.mem_cons_self x l

theorem mem_insertSet_of_mem {x : String} (y : String) {l : List String}
    (h : x ∈ l) : x ∈ insertSet y l := by
  unfold insertSet
  split
  · exact h
  · exact List.mem_cons_of_mem y h

theorem is_duplicate_true_of_mem {s : DedupState} {u : String} (c : String)
    (h : normalize_url u ∈ s.fetched_urls) : (is_duplicate s u c).1 = true := by
  unfold is_duplicate
  simp only [h, if_true]

theorem is_duplicate_false_mem {s : DedupState} {u c : String}
    (h : (is_duplicate s u c).1 = false) :
    normalize_url u ∈ (is_duplicate s u c).2.fetched_urls := by
  unfold is_duplicate at h ⊢
  by_cases h1 : normalize_url u ∈ s.fetched_urls
  · simp [h1] at h
  · simp only [h1, if_false] at h ⊢
    by_cases h2 : s.url_content_hash_map.any
        (fun p => decide ((9 : ℚ)/10 < hashSimilarity (generate_content_hash c) p.2)) = true
    · simp [h2] at h
    · simp only [h2] at h ⊢
      simp only [Bool.false_eq_true, if_false]
      exact mem_insertSet_self _ _

theorem is_duplicate_fetched_mono {s : DedupState} {x : String} (u c : String)
    (h : x ∈ s.fetched_urls) : x ∈ (is_duplicate s u c).2.fetched_urls := by
  unfold is_duplicate
  by_cases h1 : normalize_url u ∈ s.fetched_urls
  · simpa [h1]
  · simp only [h1, if_false]
    by_cases h2 : s.url_content_hash_map.any
        (fun p => decide ((9 : ℚ)/10 < hashSimilarity (generate_content_hash c) p.2)) = true
    · simpa [h2]
    · simp only [h2]
      simpa using mem_insertSet_of_mem _ h

theorem dedupRun_fetched_mono {x : String} (calls : List (String × String)) :
    ∀ s : DedupState, x ∈ s.fetched_urls → x ∈ (dedupRun s calls).fetched_urls := by
  induction calls with
  | nil => intro s h; exact h
  | cons p rest ih =>
      intro s h
      exact ih _ (is_duplicate_fetched_mono p.1 p.2 h)

/-- Number of stored fingerprints the near-duplicate check of `_is_duplicate`
compares against: the content-hash loop iterates over all of
`self.url_content_hash_map.values()`. -/
def windowSize (s : DedupState) : ℕ := s.url_content_hash_map.length

/-- The claimed property of C9: some fixed bound `B` on the comparison-window
size is an invariant preserved by every `_is_duplicate` call. -/
def boundedWindowInvariant (B : ℕ) : Prop :=
  ∀ (s : DedupState) (u c : String),
    windowSize s ≤ B → windowSize (is_duplicate s u c).2 ≤ B

/-- C1. Once `_is_duplicate(u, c)` has returned `False` (registering
`normalize_url u`), every later `_is_duplicate(u', c')` call — after any
further sequence of `_is_duplicate` calls — returns `True` whenever
`normalize_url u' = normalize_url u`, for any content `c'`. -/
theorem c1_nondup_registers_url (s : DedupState) (u c u' c' : String)
    (calls : List (String × String))
    (hfalse : (is_duplicate s u c).1 = false)
    (hnorm : normalize_url u' = normalize_url u) :
    (is_duplicate (dedupRun (is_duplicate s u c).2 calls) u' c').1 = true := by
  apply is_duplicate_true_of_mem
  rw [hnorm]
  exact dedupRun_fetched_mono calls _ (is_duplicate_false_mem hfalse)

/-- Witness for C1 at concrete inputs: the first call on
`https://example.com/a?utm=1` is not a duplicate; after an unrelated call, the
query-variant `https://example.com/a#frag` of the same URL is flagged. -/
theorem c1_nondup_registers_url_witness :
    (is_duplicate ⟨[], []⟩ "https://example.com/a?utm=1" "hello world").1 = false ∧
    normalize_url "https://example.com/a#frag" = normalize_url "https://example.com/a?utm=1" ∧
    (is_duplicate
      (dedupRun (is_duplicate ⟨[], []⟩ "https://example.com/a?utm=1" "hello world").2
        [("https://example.org/b", "other content")])
      "https://example.com/a#frag" "different").1 = true :=
  ⟨by decide, by decide,
   c1_nondup_registers_url ⟨[], []⟩ "https://example.com/a?utm=1" "hello world"
     "https://example.com/a#frag" "different" [("https://example.org/b", "other content")]
     (by decide) (by decide)⟩

/-! ### C9: the comparison window is not bounded by any invariant constant -/

def c9Key (i : ℕ) : String := String.mk (List.replicate (i + 5) 'a')

/-- An aggregator state holding `B` distinct registered URLs and `B` stored
content hashes. -/
def c9State (B : ℕ) : DedupState :=
  ⟨(List.range B).map c9Key, (List.range B).map (fun i => (c9Key i, "x"))⟩

theorem c9Key_length (i : ℕ) : (c9Key i).length = i + 5 := by
  simp [c9Key, String.length]

theorem c9Key_ne (i : ℕ) : c9Key i ≠ "://u" := by
  intro h
  have hlen := congrArg String.length h
  rw [c9Key_length] at hlen
  have h4 : ("://u" : String).length = 4 := rfl
  omega

theorem c9_nu : normalize_url "u" = "://u" := by decide

theorem c9_not_mem (B : ℕ) : ("://u" : String) ∉ (List.range B).map c9Key := by
  simp only [List.mem_map]
  rintro ⟨i, _, h⟩
  exact c9Key_ne i h

theorem c9_sim (c : String) : hashSimilarity (generate_content_hash c) "x" = 0 := by
  unfold hashSimilarity
  rw [if_pos]
  have : (generate_content_hash c).length = 64 := sha256hex_length c
  rw [this]
  decide

theorem c9_any_false (B : ℕ) (c : String) :
    ((List.range B).map (fun i => (c9Key i, "x"))).any
      (fun p => decide ((9 : ℚ)/10 < hashSimilarity (generate_content_hash c) p.2)) = false := by
  rw [List.any_eq_false]
  intro p hp
  rcases List.mem_map.mp hp with ⟨i, _, rfl⟩
  simp only [decide_eq_false_iff_not, not_lt, c9_sim c]
  norm_num

theorem dictInsert_length_fresh {k v : String} :
    ∀ {l : List (String × String)}, (∀ p ∈ l, p.1 ≠ k) →
      (dictInsert k v l).length = l.length + 1 := by
  intro l
  induction l with
  | nil => intro _; rfl
  | cons p rest ih =>
      intro h
      unfold dictInsert
      rw [if_neg (h p (List.mem_cons_self p rest))]
      simp only [List.length_cons]
      rw [ih (fun q hq => h q (List.mem_cons_of_mem p hq))]

theorem dictInsert_length_le (k v : String) :
    ∀ l : List (String × String), (dictInsert k v l).length ≤ l.length + 1 := by
  intro l
  induction l with
  | nil => simp [dictInsert]
  | cons p rest ih =>
      unfold dictInsert
      split
      · simp
      · simpa using ih

theorem c9_size (B : ℕ) : windowSize (c9State B) = B := by
  simp [windowSize, c9State]

theorem c9_step (B : ℕ) : windowSize (is_duplicate (c9State B) "u" "c").2 = B + 1 := by
  have hmem : normalize_url "u" ∉ (List.range B).map c9Key := by
    rw [c9_nu]; exact c9_not_mem B
  unfold is_duplicate windowSize
  simp only [c9State]
  rw [if_neg hmem]
  simp only [c9_any_false B "c", Bool.false_eq_true, if_false]
  rw [dictInsert_length_fresh]
  · simp
  · intro p hp
    rcases List.mem_map.mp hp with ⟨i, _, rfl⟩
    rw [c9_nu]
    exact c9Key_ne i

/-- Counterexample to C9 as stated: no constant bound on the comparison-window
size is preserved by every `_is_duplicate` call — from a state holding `B`
fingerprints, a non-duplicate call moves the window size from `B` to `B + 1`. -/
theorem c9_counterexample : ¬ ∃ B : ℕ, boundedWindowInvariant B := by
  rintro ⟨B, hB⟩
  have h := hB (c9State B) "u" "c" (le_of_eq (c9_size B))
  rw [c9_step B] at h
  omega

/-- C9 amended: the comparison window has no constant invariant bound, but each
`_is_duplicate` call grows it by at most one entry, and `_load_fetched_urls`
(the only cross-run preload, capped at 1000 ledger entries) never populates the
content-hash map at all — so per-call comparison work is proportional to the
number of in-session admissions, not to the size of the persisted ledger. -/
theorem c9_amended_window_growth (s : DedupState) (u c : String)
    (docs : List (Option String)) :
    windowSize (is_duplicate s u c).2 ≤ windowSize s + 1 ∧
    windowSize (load_fetched_urls docs s) = windowSize s := by
  constructor
  · unfold is_duplicate
    by_cases h1 : normalize_url u ∈ s.fetched_urls
    · simp [h1, windowSize]
    · simp only [h1, if_false]
      by_cases h2 : s.url_content_hash_map.any
          (fun p => decide ((9 : ℚ)/10 < hashSimilarity (generate_content_hash c) p.2)) = true
      · simp [h2, windowSize]
      · simp only [h2, Bool.false_eq_true, if_false, windowSize]
        exact dictInsert_length_le _ _ _
  · unfold load_fetched_urls
    induction docs generalizing s with
    | nil => rfl
    | cons d rest ih =>
        rcases d with _ | u'
        · exact ih s
        · simp only [List.foldl_cons]
          by_cases h : u' ≠ ""
          · rw [if_pos h]
            exact ih _
          · rw [if_neg h]
            exact ih s

/-! ### Model of `NewsAggregator.get_all_news` (news_sources.py lines 539-578)
Fetching is I/O: the per-source result lists are inputs.  In the source,
`rss_results` and `twitter_results` are hard-coded to `[]` (lines 545-547), so
only the NewsAPI list is a real input.  `datetime.datetime.fromisoformat`
(after the `"Z" → "+00:00"` rewrite) composed with `astimezone(utc)` is
modelled by an arbitrary partial parse function into `ℕ` timestamps with
`datetime.min ↦ 0`; `list.sort(key=..., reverse=True)` is a stable descending
sort, modelled by `List.insertionSort` with the total preorder
`keyDesc` (stable sorts by the same total preorder agree). -/

structure ArticleMeta where
  published_at : String := ""
  url : String := ""
  author : String := ""
deriving Repr, DecidableEq

structure CandidateArticle where
  title : String := ""
  content : String := ""
  processed_content : Option String := none
  source : Option String := none
  metadata : ArticleMeta := {}
deriving Repr, DecidableEq

/-- Model of the local `get_published_date` closure (lines 563-573): parse
`metadata.published_at` when truthy, fall back to the minimum timestamp on
a missing or unparseable value. -/
def get_published_date (parseDate : String → Option ℕ) (a : CandidateArticle) : ℕ :=
  let published_at := a.metadata.published_at
  if published_at ≠ "" then (parseDate published_at).getD 0 else 0

/-- Descending order by a key, as `list.sort(key=f, reverse=True)` compares. -/
def keyDesc {α β : Type} [LinearOrder β] (f : α → β) : α → α → Prop :=
  fun a b => f b ≤ f a

instance keyDescDecidable {α β : Type} [LinearOrder β] (f : α → β) :
    DecidableRel (keyDesc f) :=
  fun a b => inferInstanceAs (Decidable (f b ≤ f a))

instance keyDescTotal {α β : Type} [LinearOrder β] (f : α → β) :
    IsTotal α (keyDesc f) :=
  ⟨fun a b => le_total (f b) (f a)⟩

instance keyDescTrans {α β : Type} [LinearOrder β] (f : α → β) :
    IsTrans α (keyDesc f) :=
  ⟨fun _ _ _ h1 h2 => le_trans h2 h1⟩

/-- Source-tagged concatenation of the three per-source lists
(lines 550-560; the RSS and Twitter lists are `[]` in the source). -/
def taggedResults (newsapi_results : List CandidateArticle) : List CandidateArticle :=
  (newsapi_results.map (fun a => { a with source := some "NewsAPI" })) ++
  (([] : List CandidateArticle).map (fun a => { a with source := some "RSS" })) ++
  (([] : List CandidateArticle).map (fun a => { a with source := some "Twitter" }))

/-- Model of `NewsAggregator.get_all_news`: tag, sort by recency descending,
truncate to `self.max_news` (10 in `__init__`, kept as a parameter). -/
def get_all_news (parseDate : String → Option ℕ) (maxNews : ℕ)
    (newsapi_results : List CandidateArticle) : List CandidateArticle :=
  (List.insertionSort (keyDesc (get_published_date parseDate))
    (taggedResults newsapi_results)).take maxNews

/-- C2. `get_all_news` returns at most the configured budget of candidates,
sorted descending by effective publish timestamp (missing/unparseable stamps
act as the minimum timestamp, hence sort last); truncation happens only after
sorting, so every dropped candidate's effective timestamp is at most every
returned candidate's. -/
theorem c2_get_all_news_budget_sorted (parseDate : String → Option ℕ)
    (maxNews : ℕ) (newsapi_results : List CandidateArticle) :
    (get_all_news parseDate maxNews newsapi_results).length ≤ maxNews ∧
    List.Sorted (keyDesc (get_published_date parseDate))
      (get_all_news parseDate maxNews newsapi_results) ∧
    get_all_news parseDate maxNews newsapi_results =
      (List.insertionSort (keyDesc (get_published_date parseDate))
        (taggedResults newsapi_results)).take maxNews ∧
    ∀ d ∈ (List.insertionSort (keyDesc (get_published_date parseDate))
        (taggedResults newsapi_results)).drop maxNews,
      ∀ kpt ∈ get_all_news parseDate maxNews newsapi_results,
        get_published_date parseDate d ≤ get_published_date parseDate kpt := by
  refine ⟨List.length_take_le _ _, ?_, rfl, ?_⟩
  · exact List.Pairwise.sublist (List.take_sublist _ _)
      (List.sorted_insertionSort _ _)
  · have h := List.sorted_insertionSort
      (keyDesc (get_published_date parseDate)) (taggedResults newsapi_results)
    rw [← List.take_append_drop maxNews
      (List.insertionSort (keyDesc (get_published_date parseDate))
        (taggedResults newsapi_results))] at h
    obtain ⟨-, -, h3⟩ := List.pairwise_append.mp h
    intro d hd kpt hk
    exact h3 kpt hk d hd

/-! ### Model of `NewsVectorDB` (vector_db.py lines 109-175)
The Chroma store is an external collaborator.  For one fixed `(query,
filters)` pair it is modelled by its full ranked candidate list — the
`(document, score)` pairs `similarity_search_with_score` would return, in the
order the store yields them (for Chroma with `hnsw:space = cosine` the score
is a distance, ascending) — plus two fault flags saying whether the
with-score call (line 114) or the plain `similarity_search` call (lines
158/168) raises.  Scores are `ℚ` (ordering of Python floats is what the
claims are about).  Python exceptions are `Except Unit`. -/

structure NDoc where
  page_content : String
deriving Repr, DecidableEq

structure VectorStoreModel where
  ranking : List (NDoc × ℚ)
  withScoreFails : Bool := false
  plainFails : Bool := false

/-- Successful result of `self.vector_store.similarity_search(query, k, filter)`:
the first `k` ranked documents. -/
def plainResults (s : VectorStoreModel) (k : ℕ) : List NDoc :=
  (s.ranking.take k).map Prod.fst

/-- Python `str.lower()`, character by character. -/
def pyLower (s : String) : String := String.mk (s.toList.map Char.toLower)

/-- Tokenizer worker for `str.split()`: accumulate the current token
(reversed) while scanning, emitting it at each whitespace run. -/
def pyTokens : List Char → List Char → List String
  | [], acc => if acc = [] then [] else [String.mk acc.reverse]
  | c :: rest, acc =>
      if c.isWhitespace then
        if acc = [] then pyTokens rest [] else String.mk acc.reverse :: pyTokens rest []
      else pyTokens rest (c :: acc)

/-- Python `str.split()` with no argument: split on whitespace runs. -/
def pySplit (s : String) : List String := pyTokens s.toList []

/-- Python substring test `term in content`. -/
def pyContainsSub (content term : String) : Bool :=
  content.toList.tails.any (fun t => term.toList.isPrefixOf t)

/-- Keyword score of one candidate (vector_db.py lines 126-134): number of
distinct case-folded query terms (`set(query.lower().split())`) occurring as
substrings of the lowercased content, divided by the content's token count
plus one. -/
def keywordScore (query : String) (d : NDoc) : ℚ :=
  let query_terms := (pySplit (pyLower query)).dedup
  let content := pyLower d.page_content
  let term_matches := query_terms.countP (fun t => pyContainsSub content t)
  (term_matches : ℚ) / (((pySplit content).length : ℚ) + 1)

/-- Python `max(scores) if scores else 1` (lines 137-138). -/
def pyMax (l : List ℚ) : ℚ :=
  match l with
  | [] => 1
  | x :: xs => xs.foldl max x

/-- Python `min(scores)` with the same empty-list default, used only by the
spec-side min-max definition below. -/
def pyMin (l : List ℚ) : ℚ :=
  match l with
  | [] => 1
  | x :: xs => xs.foldl min x

/-- Score normalization as the source performs it (lines 140-141):
`[score/max_score for score in scores]`.  A float division by zero raises
`ZeroDivisionError` in Python, which happens exactly when the list is
nonempty and its maximum is `0`. -/
def normalize_scores (l : List ℚ) : Except Unit (List ℚ) :=
  let m := pyMax l
  if l ≠ [] ∧ m = 0 then Except.error () else Except.ok (l.map (· / m))

/-- Modelled from the spec: independent min-max normalization of a score
vector, treating every entry as `1.0` when all scores are equal (the spec's
divide-by-zero guard).  This is the refinement target C4 compares the source
normalization against. -/
def minMaxNormalizeSpec (l : List ℚ) : List ℚ :=
  let hi := pyMax l
  let lo := pyMin l
  if hi = lo then l.map (fun _ => 1) else l.map (fun s => (s - lo) / (hi - lo))

/-- The `2k` semantic candidates hybrid search retrieves (lines 114-118). -/
def hybridCandidates (store : VectorStoreModel) (k : ℕ) : List (NDoc × ℚ) :=
  store.ranking.take (k * 2)

/-- Scored result pairs of hybrid search before sorting (lines 120-150):
documents zipped with `alpha * normalized_semantic + (1-alpha) *
normalized_keyword`. -/
def hybridResults (query : String) (alpha : ℚ) (cands : List (NDoc × ℚ)) :
    Except Unit (List (NDoc × ℚ)) :=
  let documents := cands.map Prod.fst
  let semantic_scores := cands.map Prod.snd
  let keyword_scores := documents.map (keywordScore query)
  match normalize_scores semantic_scores, normalize_scores keyword_scores with
  | Except.ok ns, Except.ok nk =>
      Except.ok (documents.zip
        (List.zipWith (fun s k' => alpha * s + (1 - alpha) * k') ns nk))
  | _, _ => Except.error ()

/-- The `try` body of `NewsVectorDB.hybrid_search` (lines 112-154): retrieve,
score, stable-sort descending by combined score (`results.sort(key=...,
reverse=True)` — stable, modelled by `insertionSort` with the total preorder
`keyDesc Prod.snd`), return the top `k` documents. -/
def hybrid_core (store : VectorStoreModel) (query : String) (k : ℕ) (alpha : ℚ) :
    Except Unit (List NDoc) :=
  if store.withScoreFails then Except.error ()
  else
    match hybridResults query alpha (hybridCandidates store k) with
    | Except.ok results =>
        Except.ok (((List.insertionSort (keyDesc Prod.snd) results).take k).map Prod.fst)
    | Except.error _ => Except.error ()

/-- Model of `NewsVectorDB.hybrid_search` (lines 109-162): on any exception in
the hybrid body, fall back to `self.vector_store.similarity_search(query, k,
filter)`; if that call itself raises, the exception propagates. -/
def hybrid_search (store : VectorStoreModel) (query : String) (k : ℕ) (alpha : ℚ) :
    Except Unit (List NDoc) :=
  match hybrid_core store query k alpha with
  | Except.ok r => Except.ok r
  | Except.error _ =>
      if store.plainFails then Except.error () else Except.ok (plainResults store k)

/-- Model of `NewsVectorDB.semantic_search` (lines 164-175): the plain
similarity search, with every exception swallowed into `[]`. -/
def semantic_search (store : VectorStoreModel) (query : String) (k : ℕ) : List NDoc :=
  if store.plainFails then [] else plainResults store k

/-! ### C10: semantic_search swallows failures into the empty list -/

/-- C10. `semantic_search` never raises: when the underlying similarity call
fails, it returns `[]`, which is exactly what it returns for a store with no
matching documents — an index outage and an empty result set are
indistinguishable at its interface. -/
theorem c10_semantic_search_never_raises (store : VectorStoreModel)
    (query : String) (k : ℕ) (h : store.plainFails = true) :
    semantic_search store query k = [] ∧
    semantic_search store query k =
      semantic_search { ranking := [], withScoreFails := false, plainFails := false }
        query k := by
  unfold semantic_search
  rw [h]
  simp [plainResults]

/-- Witness for C10: a failing store over a nonempty index returns `[]`. -/
theorem c10_semantic_search_never_raises_witness :
    semantic_search
      { ranking := [(⟨"tesla earnings"⟩, 1/10)], withScoreFails := false,
        plainFails := true } "tesla" 5 = [] ∧
    semantic_search
      { ranking := [(⟨"tesla earnings"⟩, 1/10)], withScoreFails := false,
        plainFails := true } "tesla" 5 =
      semantic_search { ranking := [], withScoreFails := false, plainFails := false }
        "tesla" 5 :=
  c10_semantic_search_never_raises
    { ranking := [(⟨"tesla earnings"⟩, 1/10)], withScoreFails := false,
      plainFails := true } "tesla" 5 rfl

/-! ### C5: hybrid search falls back to plain semantic search and is bounded -/

theorem hybrid_core_ok_length {store : VectorStoreModel} {query : String}
    {k : ℕ} {alpha : ℚ} {r : List NDoc}
    (h : hybrid_core store query k alpha = Except.ok r) : r.length ≤ k := by
  unfold hybrid_core at h
  by_cases hf : store.withScoreFails
  · rw [if_pos hf] at h
    exact absurd h (by simp)
  · rw [if_neg hf] at h
    cases hres : hybridResults query alpha (hybridCandidates store k) with
    | ok results =>
        rw [hres] at h
        injection h with h
        rw [← h]
        simp only [List.length_map]
        exact List.length_take_le _ _
    | error e =>
        rw [hres] at h
        exact absurd h (by simp)

/-- C5. If any internal error occurs inside the hybrid ranking body (the
with-score retrieval raising, or the ZeroDivisionError in normalization),
`hybrid_search` returns exactly the plain semantic similarity result for the
same query, `k` and filters (assuming the fallback call itself does not
raise), and whenever `hybrid_search` returns a list it has at most `k`
documents. -/
theorem c5_hybrid_fallback_and_bound (store : VectorStoreModel) (query : String)
    (k : ℕ) (alpha : ℚ) (hplain : store.plainFails = false) :
    ((hybrid_core store query k alpha).isOk = false →
      hybrid_search store query k alpha = Except.ok (plainResults store k)) ∧
    (∀ l, hybrid_search store query k alpha = Except.ok l → l.length ≤ k) := by
  constructor
  · intro herr
    unfold hybrid_search
    cases hcore : hybrid_core store query k alpha with
    | ok r => rw [hcore] at herr; simp [Except.isOk, Except.toBool] at herr
    | error e => rw [hplain]; simp
  · intro l hl
    unfold hybrid_search at hl
    cases hcore : hybrid_core store query k alpha with
    | ok r =>
        rw [hcore] at hl
        injection hl with hl
        rw [← hl]
        exact hybrid_core_ok_length hcore
    | error e =>
        rw [hcore, hplain] at hl
        simp only [Bool.false_eq_true, if_false] at hl
        injection hl with hl
        rw [← hl]
        unfold plainResults
        simp only [List.length_map]
        exact List.length_take_le _ _

/-- Witness for C5: a store whose with-score call raises mid-way; the hybrid
search output equals the plain similarity result. -/
theorem c5_hybrid_fallback_and_bound_witness :
    hybrid_search
      { ranking := [(⟨"tesla earnings"⟩, 1/10), (⟨"other news"⟩, 3/10)],
        withScoreFails := true, plainFails := false } "tesla" 1 (1/2) =
      Except.ok (plainResults
        { ranking := [(⟨"tesla earnings"⟩, 1/10), (⟨"other news"⟩, 3/10)],
          withScoreFails := true, plainFails := false } 1) :=
  (c5_hybrid_fallback_and_bound
    { ranking := [(⟨"tesla earnings"⟩, 1/10), (⟨"other news"⟩, 3/10)],
      withScoreFails := true, plainFails := false } "tesla" 1 (1/2) rfl).1
    (by decide)

/-! ### C4: score normalization and the divide-by-zero guard -/

theorem foldl_max_all_eq {c : ℚ} :
    ∀ xs : List ℚ, (∀ x ∈ xs, x = c) → xs.foldl max c = c := by
  intro xs
  induction xs with
  | nil => intro _; rfl
  | cons y ys ih =>
      intro h
      simp only [List.foldl_cons]
      rw [h y (List.mem_cons_self y ys), max_self]
      exact ih (fun x hx => h x (List.mem_cons_of_mem y hx))

theorem pyMax_all_eq {l : List ℚ} {c : ℚ} (hne : l ≠ [])
    (hall : ∀ x ∈ l, x = c) : pyMax l = c := by
  cases l with
  | nil => exact absurd rfl hne
  | cons x xs =>
      unfold pyMax
      rw [hall x (List.mem_cons_self x xs)]
      exact foldl_max_all_eq xs (fun y hy => hall y (List.mem_cons_of_mem x hy))

/-- Counterexample to C4 as stated: the source normalizes by dividing by the
maximum, which differs from min-max normalization already on the score vector
`[1, 3]`, and an all-zero (equal) score vector is not guarded — the division
by zero is performed, raising (modelled as `Except.error`), instead of every
entry being treated as `1.0`. -/
theorem c4_counterexample :
    normalize_scores [1, 3] = Except.ok [1/3, 1] ∧
    minMaxNormalizeSpec [1, 3] = [0, 1] ∧
    ([1/3, 1] : List ℚ) ≠ [0, 1] ∧
    normalize_scores [0, 0] = Except.error () := by
  have hmax : pyMax [(1 : ℚ), 3] = 3 := by
    show max (1 : ℚ) 3 = 3
    exact max_eq_right (by norm_num)
  have hmin : pyMin [(1 : ℚ), 3] = 1 := by
    show min (1 : ℚ) 3 = 1
    exact min_eq_left (by norm_num)
  refine ⟨?_, ?_, ?_, ?_⟩
  · simp only [normalize_scores, hmax]
    rw [if_neg (by rintro ⟨-, h⟩; norm_num at h)]
    norm_num
  · simp only [minMaxNormalizeSpec, hmax, hmin]
    rw [if_neg (by norm_num)]
    norm_num
  · simp only [ne_eq, List.cons.injEq, not_and]
    intro h
    norm_num at h
  · simp only [normalize_scores]
    rw [if_pos ⟨by simp, by show max (0 : ℚ) 0 = 0; exact max_self 0⟩]

/-- C4 amended: each score vector is normalized by dividing by its maximum
(not min-max normalized); the only divide-by-zero guard is the empty-vector
default `max = 1`.  When all scores are equal and nonzero, every normalized
entry does come out as `1.0`; but when all scores are zero, a division by
zero occurs (the surrounding handler then falls back to plain semantic
search). -/
theorem c4_amended_max_normalization (l : List ℚ) (c : ℚ) (hne : l ≠ [])
    (hall : ∀ x ∈ l, x = c) :
    (c ≠ 0 → normalize_scores l = Except.ok (l.map (fun _ => 1))) ∧
    (c = 0 → normalize_scores l = Except.error ()) := by
  have hmax : pyMax l = c := pyMax_all_eq hne hall
  constructor
  · intro hc
    unfold normalize_scores
    rw [if_neg (by rintro ⟨-, h0⟩; rw [hmax] at h0; exact hc h0)]
    congr 1
    apply List.map_congr_left
    intro a ha
    rw [hall a ha, hmax]
    exact div_self hc
  · intro hc
    unfold normalize_scores
    rw [if_pos ⟨hne, by rw [hmax, hc]⟩]

/-- Witness for the amended C4 at the all-equal nonzero vector `[2, 2]`. -/
theorem c4_amended_max_normalization_witness :
    normalize_scores [2, 2] = Except.ok [1, 1] :=
  (c4_amended_max_normalization [2, 2] 2 (by decide) (by decide)).1 (by norm_num)

/-! ### C3: hybrid ordering at the alpha extremes -/

def c3Doc1 : NDoc := ⟨"tesla a b c"⟩

def c3Doc2 : NDoc := ⟨"tesla x"⟩

/-- A store over two documents: scores are the values Chroma's
`similarity_search_with_score` yields — cosine distances, ascending, so the
first-ranked (most similar) document carries the smaller score. -/
def c3Store : VectorStoreModel :=
  { ranking := [(c3Doc1, 1/10), (c3Doc2, 4/10)],
    withScoreFails := false, plainFails := false }

theorem c3kw1 : keywordScore "tesla" c3Doc1 = 1/5 := by
  have h1 : ((pySplit (pyLower "tesla")).dedup.countP
      (fun t => pyContainsSub (pyLower "tesla a b c") t)) = 1 := by decide
  have h2 : (pySplit (pyLower "tesla a b c")).length = 4 := by decide
  simp only [keywordScore, c3Doc1]
  rw [h1, h2]
  norm_num

theorem c3kw2 : keywordScore "tesla" c3Doc2 = 1/3 := by
  have h1 : ((pySplit (pyLower "tesla")).dedup.countP
      (fun t => pyContainsSub (pyLower "tesla x") t)) = 1 := by decide
  have h2 : (pySplit (pyLower "tesla x")).length = 2 := by decide
  simp only [keywordScore, c3Doc2]
  rw [h1, h2]
  norm_num

theorem c3ns : normalize_scores [1/10, 4/10] = Except.ok [1/4, 1] := by
  have hm : pyMax [(1 : ℚ)/10, 4/10] = 4/10 := by
    show max ((1 : ℚ)/10) (4/10) = 4/10
    exact max_eq_right (by norm_num)
  simp only [normalize_scores, hm]
  rw [if_neg (by rintro ⟨-, h⟩; norm_num at h)]
  norm_num

theorem c3nk : normalize_scores [1/5, 1/3] = Except.ok [3/5, 1] := by
  have hm : pyMax [(1 : ℚ)/5, 1/3] = 1/3 := by
    show max ((1 : ℚ)/5) (1/3) = 1/3
    exact max_eq_right (by norm_num)
  simp only [normalize_scores, hm]
  rw [if_neg (by rintro ⟨-, h⟩; norm_num at h)]
  norm_num

theorem c3res : hybridResults "tesla" 1 (hybridCandidates c3Store 2) =
    Except.ok [(c3Doc1, 1/4), (c3Doc2, 1)] := by
  have key : hybridResults "tesla" 1 (hybridCandidates c3Store 2) =
      match normalize_scores [1/10, 4/10],
            normalize_scores [keywordScore "tesla" c3Doc1, keywordScore "tesla" c3Doc2] with
      | Except.ok ns, Except.ok nk =>
          Except.ok ([c3Doc1, c3Doc2].zip
            (List.zipWith (fun s k' => 1 * s + (1 - 1) * k') ns nk))
      | _, _ => Except.error () := rfl
  rw [key, c3kw1, c3kw2, c3ns, c3nk]
  norm_num

theorem c3sort : List.insertionSort (keyDesc (Prod.snd : NDoc × ℚ → ℚ))
    [(c3Doc1, 1/4), (c3Doc2, 1)] = [(c3Doc2, 1), (c3Doc1, 1/4)] := by
  simp only [List.insertionSort, List.orderedInsert]
  rw [if_neg]
  simp only [keyDesc]
  norm_num

/-- Counterexample to C3 as stated: with `alpha = 1.0` hybrid search does
not reproduce the plain semantic order — it sorts descending on the raw
(distance) scores, reversing it.  On a two-document store ranked
`[doc1, doc2]`, plain semantic search returns `[doc1, doc2]`, hybrid search
with `alpha = 1.0` returns `[doc2, doc1]`. -/
theorem c3_counterexample :
    hybrid_search c3Store "tesla" 2 1 = Except.ok [c3Doc2, c3Doc1] ∧
    semantic_search c3Store "tesla" 2 = [c3Doc1, c3Doc2] ∧
    ([c3Doc2, c3Doc1] : List NDoc) ≠ [c3Doc1, c3Doc2] := by
  have hcore : hybrid_core c3Store "tesla" 2 1 = Except.ok [c3Doc2, c3Doc1] := by
    unfold hybrid_core
    rw [show c3Store.withScoreFails = false from rfl]
    simp only [Bool.false_eq_true, if_false]
    rw [c3res]
    show Except.ok (((List.insertionSort (keyDesc Prod.snd)
      [(c3Doc1, 1/4), (c3Doc2, 1)]).take 2).map Prod.fst) = Except.ok [c3Doc2, c3Doc1]
    rw [c3sort]
    rfl
  refine ⟨?_, rfl, by decide⟩
  unfold hybrid_search
  rw [hcore]

theorem normalize_scores_ok_of (l : List ℚ) (h : pyMax l ≠ 0) :
    normalize_scores l = Except.ok (l.map (· / pyMax l)) := by
  unfold normalize_scores
  rw [if_neg (by rintro ⟨-, h0⟩; exact h h0)]

/-- When neither score vector triggers the divide-by-zero, the scored result
pairs of hybrid search are the candidates mapped to their combined scores. -/
theorem hybridResults_map (query : String) (alpha : ℚ) (cands : List (NDoc × ℚ))
    (h1 : pyMax (cands.map Prod.snd) ≠ 0)
    (h2 : pyMax ((cands.map Prod.fst).map (keywordScore query)) ≠ 0) :
    hybridResults query alpha cands = Except.ok (cands.map (fun p =>
      (p.1, alpha * (p.2 / pyMax (cands.map Prod.snd)) +
            (1 - alpha) * (keywordScore query p.1 /
              pyMax ((cands.map Prod.fst).map (keywordScore query)))))) := by
  simp only [hybridResults]
  rw [normalize_scores_ok_of _ h1, normalize_scores_ok_of _ h2]
  simp only [List.map_map, List.zipWith_map, List.zipWith_same, List.zip_map',
    Function.comp_apply]

/-- Projecting the stable descending sort on pair scores down to documents:
if every pair's score is `key` of its document divided by a positive
constant, the output document list is pairwise descending in `key`. -/
theorem pairwise_hybrid_sort (key : NDoc → ℚ) (m : ℚ) (hm : 0 < m)
    (results : List (NDoc × ℚ)) (hres : ∀ p ∈ results, p.2 = key p.1 / m) (k : ℕ) :
    (((List.insertionSort (keyDesc (Prod.snd : NDoc × ℚ → ℚ)) results).take k).map
      Prod.fst).Pairwise (fun d e => key e ≤ key d) := by
  rw [List.pairwise_map]
  have hsorted : List.Pairwise (keyDesc (Prod.snd : NDoc × ℚ → ℚ))
      ((List.insertionSort (keyDesc Prod.snd) results).take k) :=
    List.Pairwise.sublist (List.take_sublist _ _)
      (List.sorted_insertionSort _ _)
  have hperm := List.perm_insertionSort (keyDesc (Prod.snd : NDoc × ℚ → ℚ)) results
  apply hsorted.imp_of_mem
  intro p q hp hq hpq
  have hpm : p ∈ results := hperm.mem_iff.mp (List.take_subset _ _ hp)
  have hqm : q ∈ results := hperm.mem_iff.mp (List.take_subset _ _ hq)
  simp only [keyDesc] at hpq
  rw [hres p hpm, hres q hqm] at hpq
  exact (div_le_div_iff_of_pos_right hm).mp hpq

/-- C3 amended: over any candidate set where neither normalization divides by
zero, hybrid search with `alpha = 0.0` orders its output purely by descending
lexical-overlap score, while hybrid search with `alpha = 1.0` orders it by
descending raw semantic score — for a distance-scored store (Chroma cosine)
this is the *reverse* of the plain semantic order, not the same ordering. -/
theorem c3_amended_alpha_extremes (store : VectorStoreModel) (query : String)
    (k : ℕ) (scoreOf : NDoc → ℚ)
    (hfail : store.withScoreFails = false)
    (hscore : ∀ p ∈ store.ranking, scoreOf p.1 = p.2)
    (hm1 : 0 < pyMax ((hybridCandidates store k).map Prod.snd))
    (hm2 : 0 < pyMax (((hybridCandidates store k).map Prod.fst).map (keywordScore query))) :
    ((hybrid_search store query k 0).isOk = true ∧
     ∀ out0, hybrid_search store query k 0 = Except.ok out0 →
       out0.Pairwise (fun d e => keywordScore query e ≤ keywordScore query d)) ∧
    ((hybrid_search store query k 1).isOk = true ∧
     ∀ out1, hybrid_search store query k 1 = Except.ok out1 →
       out1.Pairwise (fun d e => scoreOf e ≤ scoreOf d)) := by
  have hcore : ∀ alpha : ℚ,
      hybrid_core store query k alpha = Except.ok
        (((List.insertionSort (keyDesc Prod.snd)
          ((hybridCandidates store k).map (fun p =>
            (p.1, alpha * (p.2 / pyMax ((hybridCandidates store k).map Prod.snd)) +
                  (1 - alpha) * (keywordScore query p.1 /
                    pyMax (((hybridCandidates store k).map Prod.fst).map
                      (keywordScore query))))))).take k).map Prod.fst) := by
    intro alpha
    unfold hybrid_core
    rw [hfail]
    simp only [Bool.false_eq_true, if_false]
    rw [hybridResults_map query alpha _ (ne_of_gt hm1) (ne_of_gt hm2)]
  have hsearch : ∀ alpha : ℚ,
      hybrid_search store query k alpha = Except.ok
        (((List.insertionSort (keyDesc Prod.snd)
          ((hybridCandidates store k).map (fun p =>
            (p.1, alpha * (p.2 / pyMax ((hybridCandidates store k).map Prod.snd)) +
                  (1 - alpha) * (keywordScore query p.1 /
                    pyMax (((hybridCandidates store k).map Prod.fst).map
                      (keywordScore query))))))).take k).map Prod.fst) := by
    intro alpha
    unfold hybrid_search
    rw [hcore alpha]
  constructor
  · constructor
    · rw [hsearch 0]; rfl
    · intro out0 hout
      rw [hsearch 0] at hout
      injection hout with hout
      rw [← hout]
      apply pairwise_hybrid_sort (keywordScore query) _ hm2
      intro p hp
      rcases List.mem_map.mp hp with ⟨q, hq, rfl⟩
      norm_num
  · constructor
    · rw [hsearch 1]; rfl
    · intro out1 hout
      rw [hsearch 1] at hout
      injection hout with hout
      rw [← hout]
      apply pairwise_hybrid_sort scoreOf _ hm1
      intro p hp
      rcases List.mem_map.mp hp with ⟨q, hq, rfl⟩
      have hq2 : q ∈ store.ranking := List.take_subset _ _ hq
      simp only
      rw [hscore q hq2]
      norm_num

/-- Raw semantic score of each document in `c3Store`, as a function. -/
def c3Score : NDoc → ℚ := fun d => if d = c3Doc1 then 1/10 else 4/10

/-- Witness for the amended C3 on the concrete two-document store. -/
theorem c3_amended_alpha_extremes_witness :
    ((hybrid_search c3Store "tesla" 2 0).isOk = true ∧
     ∀ out0, hybrid_search c3Store "tesla" 2 0 = Except.ok out0 →
       out0.Pairwise (fun d e => keywordScore "tesla" e ≤ keywordScore "tesla" d)) ∧
    ((hybrid_search c3Store "tesla" 2 1).isOk = true ∧
     ∀ out1, hybrid_search c3Store "tesla" 2 1 = Except.ok out1 →
       out1.Pairwise (fun d e => c3Score e ≤ c3Score d)) := by
  apply c3_amended_alpha_extremes c3Store "tesla" 2 c3Score rfl
  · intro p hp
    simp only [c3Store, List.mem_cons, List.not_mem_nil, or_false] at hp
    rcases hp with rfl | rfl
    · show c3Score c3Doc1 = 1/10
      simp [c3Score]
    · show c3Score c3Doc2 = 4/10
      have hne : c3Doc2 ≠ c3Doc1 := by decide
      simp [c3Score, hne]
  · show (0 : ℚ) < max ((1 : ℚ)/10) (4/10)
    rw [max_eq_right (by norm_num : (1 : ℚ)/10 ≤ 4/10)]
    norm_num
  · show (0 : ℚ) < pyMax [keywordScore "tesla" c3Doc1, keywordScore "tesla" c3Doc2]
    rw [c3kw1, c3kw2]
    show (0 : ℚ) < max ((1 : ℚ)/5) (1/3)
    rw [max_eq_right (by norm_num : (1 : ℚ)/5 ≤ 1/3)]
    norm_num

/-! ### Model of the `News` record (news.py lines 7-83)
The parsed extraction response is a JSON-ish dict read with `.get` and
defaults; it is modelled as a record of `Option` fields (`none` = key
absent).  The trailing loop that copies leftover article-metadata keys into
the metadata bag involves arbitrary dynamic keys and is elided; the named
fields the claims touch are all modelled. -/

structure SentimentJson where
  compound_score : Option ℚ := none
  category : Option String := none
  positive_aspects : Option (List String) := none
  negative_aspects : Option (List String) := none
  neutral_aspects : Option (List String) := none
deriving Repr, DecidableEq

structure EntityJson where
  name : Option String := none
  entity_type : Option String := none
  relevance : Option ℚ := none
  sentiment : Option ℚ := none
deriving Repr, DecidableEq

structure CausalJson where
  cause : Option String := none
  effect : Option String := none
  confidence : Option ℚ := none
  explanation : Option String := none
deriving Repr, DecidableEq

structure AnalysisJson where
  valid : Option Bool := none
  subject : Option String := none
  sentiment : Option SentimentJson := none
  entities : Option (List EntityJson) := none
  topics : Option (List String) := none
  causal_relationships : Option (List CausalJson) := none
  summary : Option String := none
  confidence : Option ℚ := none
  model_version : Option String := none
  analyzed_at : Option String := none
deriving Repr, DecidableEq

structure NewsSentiment where
  compound_score : ℚ
  category : String
  positive_aspects : List String
  negative_aspects : List String
  neutral_aspects : List String
deriving Repr, DecidableEq

structure News where
  id : String
  title : String
  content : String
  processed_content : String
  sentiment : NewsSentiment
  subject : String
  topics : List String
  entities : List EntityJson
  causal_relationships : List CausalJson
  summary : String
  confidence : ℚ
  model_version : String
  published_at : String
  analyzed_at : String
  source : String
  url : String
  content_hash : String
deriving Repr, DecidableEq

/-- Model of `News.__init__(article, analysis_result)`.  `now` stands for
`datetime.utcnow().isoformat()`.  The id is the sha256 hex digest of
`article["content"]` — the raw content, never the processed content. -/
def News.make (now : String) (article : CandidateArticle)
    (analysis_result : Option AnalysisJson) : News :=
  let analysis := analysis_result.getD {}
  let content_hash := sha256hex article.content
  { id := content_hash
    title := article.title
    content := article.content
    processed_content := article.processed_content.getD article.content
    sentiment :=
      { compound_score := (analysis.sentiment.bind (fun s => s.compound_score)).getD 0
        category := (analysis.sentiment.bind (fun s => s.category)).getD "neutral"
        positive_aspects := (analysis.sentiment.bind (fun s => s.positive_aspects)).getD []
        negative_aspects := (analysis.sentiment.bind (fun s => s.negative_aspects)).getD []
        neutral_aspects := (analysis.sentiment.bind (fun s => s.neutral_aspects)).getD [] }
    subject := analysis.subject.getD ""
    topics := analysis.topics.getD []
    entities := analysis.entities.getD []
    causal_relationships := analysis.causal_relationships.getD []
    summary := analysis.summary.getD ""
    confidence := analysis.confidence.getD 0
    model_version := analysis.model_version.getD "1.0.0"
    published_at := article.metadata.published_at
    analyzed_at := analysis.analyzed_at.getD now
    source := article.source.getD "news_api"
    url := article.metadata.url
    content_hash := content_hash }

/-- C6. The News record id is the sha256 digest of the raw article content
only: two articles with identical raw content yield records with equal ids,
whatever their processed content or analysis results are. -/
theorem c6_id_from_raw_content (a1 a2 : CandidateArticle)
    (r1 r2 : Option AnalysisJson) (now1 now2 : String)
    (h : a1.content = a2.content) :
    (News.make now1 a1 r1).id = (News.make now2 a2 r2).id ∧
    (News.make now1 a1 r1).id = sha256hex a1.content := by
  constructor
  · simp [News.make, h]
  · simp [News.make]

/-- Witness for C6: same raw content, different titles, different processed
content, one analysed and one not — equal ids, equal to the digest of the
raw content. -/
theorem c6_id_from_raw_content_witness :
    (News.make "t1"
      { title := "A", content := "Tesla beats earnings expectations",
        processed_content := some "shortened summary", source := some "RSS" }
      none).id =
    (News.make "t2"
      { title := "B", content := "Tesla beats earnings expectations" }
      (some { subject := some "TSLA",
              sentiment := some { compound_score := some 1 } })).id ∧
    (News.make "t1"
      { title := "A", content := "Tesla beats earnings expectations",
        processed_content := some "shortened summary", source := some "RSS" }
      none).id = sha256hex "Tesla beats earnings expectations" :=
  c6_id_from_raw_content
    { title := "A", content := "Tesla beats earnings expectations",
      processed_content := some "shortened summary", source := some "RSS" }
    { title := "B", content := "Tesla beats earnings expectations" }
    none
    (some { subject := some "TSLA",
            sentiment := some { compound_score := some 1 } })
    "t1" "t2" rfl

/-! ### Model of `analyze_news` (news_analysis_chain.py lines 184-227)
The LLM chain invocation (`analysis_chain.invoke`) is the external input: a
successfully parsed JSON payload (`AnalysisJson`), or an exception from the
output parser carrying the raw response text (`Except.error raw`).  The
chunked summarization of over-long content (`process_long_content`, itself a
chain of LLM calls) is the external `summarize` function.  The Firestore
write is recorded in the second component; the vector-store write's metadata
construction (`result["sentiment"]["compound_score"]`, `entity["name"]`,
`result["topics"]` — plain dict indexing, raising `KeyError` when absent) is
modelled by the nested matches.  Any exception makes `analyze_news` return
`None`; the raw response is only printed, never returned. -/

def analyze_news (now : String) (summarize : String → String)
    (article : CandidateArticle) (chainResult : Except String AnalysisJson) :
    Option News × List (String × News) :=
  match chainResult with
  | Except.error _raw => (none, [])
  | Except.ok result0 =>
      let processed_content :=
        if 4000 < article.content.length then summarize article.content
        else article.content
      let article2 := { article with processed_content := some processed_content }
      let result := { result0 with model_version := some "1.0.0", analyzed_at := some now }
      let doc := News.make now article2 (some result)
      let saved := [(doc.id, doc)]
      match result.sentiment with
      | none => (none, saved)
      | some sd =>
        match sd.compound_score with
        | none => (none, saved)
        | some _ =>
          match result.entities with
          | none => (none, saved)
          | some es =>
            if es.all (fun e => e.name.isSome) then
              match result.topics with
              | none => (none, saved)
              | some _ => (some doc, saved)
            else (none, saved)

def c8Article : CandidateArticle :=
  { title := "T", content := "Tesla beats earnings expectations" }

/-- A well-formed parsed response that simply lacks the `subject` key. -/
def c8Result : AnalysisJson :=
  { valid := some true,
    sentiment := some { compound_score := some (1/2), category := some "positive" },
    entities := some [], topics := some [], summary := some "s",
    confidence := some 1 }

/-- Counterexample to C8 as stated: a parsed response with no `subject` key
sails through — `analyze_news` returns a News record whose `subject` has been
silently defaulted to the empty string. -/
theorem c8_counterexample :
    ((analyze_news "t0" (fun s => s) c8Article (Except.ok c8Result)).1).map
      News.subject = some "" ∧
    c8Result.subject = none :=
  ⟨rfl, rfl⟩

/-- C8 amended: on a parse/validation exception `analyze_news` returns `None`
and persists nothing — a failure value, but the raw response is only logged,
not retained in the return value.  On a successfully parsed response there is
no field validation: whenever a record is returned, its `subject` and
sentiment fields are the response values with silent defaults (`""`,
compound score `0`, category `"neutral"`) substituted for missing keys. -/
theorem c8_amended_failure_and_defaults (now : String) (summarize : String → String)
    (article : CandidateArticle) (raw : String) (result : AnalysisJson) :
    analyze_news now summarize article (Except.error raw) = (none, []) ∧
    (∀ doc, (analyze_news now summarize article (Except.ok result)).1 = some doc →
      doc.subject = result.subject.getD "" ∧
      doc.sentiment.compound_score = (result.sentiment.bind (fun s => s.compound_score)).getD 0 ∧
      doc.sentiment.category = (result.sentiment.bind (fun s => s.category)).getD "neutral") := by
  constructor
  · rfl
  · intro doc h
    simp only [analyze_news] at h
    split at h
    · simp at h
    · rename_i sd hsent
      split at h
      · simp at h
      · split at h
        · simp at h
        · split at h
          · split at h
            · simp at h
            · simp at h
              subst h
              refine ⟨?_, ?_, ?_⟩ <;> simp [News.make, hsent]
          · simp at h

/-! ### Model of `FirebaseClient.save_entity_relationship`
(firebase_store.py lines 171-201)
The `entity_relationships` Firestore collection is an association list from
document id to record.  `doc_ref.get()` is `List.lookup`; `doc_ref.set` on a
fresh id appends; `doc_ref.update` with `firestore.ArrayUnion([article_id])`
rewrites the document in place, appending the article id to `articles` only
when not already present.  `hashlib.md5(...).hexdigest()` is an external
deterministic digest, modelled as a function parameter (only its determinism
is relied on); `now` stands for `datetime.utcnow().isoformat()`. -/

structure RelDoc where
  entity_a : String
  entity_b : String
  relationship_type : String
  strength : ℚ
  articles : List String
  created_at : String
  updated_at : String
deriving Repr, DecidableEq

/-- Firestore `doc_ref.get()` on the modelled collection. -/
def fsGet (id : String) : List (String × RelDoc) → Option RelDoc
  | [] => none
  | (k, v) :: rest => if k = id then some v else fsGet id rest

/-- Firestore `ArrayUnion([x])`: append `x` unless already present. -/
def arrayUnion (l : List String) (x : String) : List String :=
  if x ∈ l then l else l ++ [x]

/-- Model of `save_entity_relationship`: returns the relationship id and the
updated collection. -/
def save_entity_relationship (md5hex : String → String) (now : String)
    (db : List (String × RelDoc)) (entity_a entity_b relationship_type : String)
    (strength : ℚ) (article_id : String) : String × List (String × RelDoc) :=
  let relationship_id :=
    md5hex (entity_a ++ ":" ++ entity_b ++ ":" ++ relationship_type)
  match fsGet relationship_id db with
  | some _ =>
      (relationship_id,
       db.map (fun p =>
         if p.1 = relationship_id then
           (p.1, { p.2 with
                     strength := strength
                     articles := arrayUnion p.2.articles article_id
                     updated_at := now })
         else p))
  | none =>
      (relationship_id,
       db ++ [(relationship_id,
         { entity_a := entity_a, entity_b := entity_b,
           relationship_type := relationship_type, strength := strength,
           articles := [article_id], created_at := now, updated_at := now })])

theorem fsGet_none_key_ne {db : List (String × RelDoc)} {id : String}
    (h : fsGet id db = none) : ∀ p ∈ db, p.1 ≠ id := by
  induction db with
  | nil => intro p hp; exact absurd hp (List.not_mem_nil p)
  | cons q rest ih =>
      intro p hp
      rcases q with ⟨k, v⟩
      unfold fsGet at h
      by_cases hk : k = id
      · rw [if_pos hk] at h
        exact absurd h (by simp)
      · rw [if_neg hk] at h
        rcases List.mem_cons.mp hp with rfl | hp2
        · exact hk
        · exact ih h p hp2

theorem fsGet_append_fresh {db : List (String × RelDoc)} {id : String}
    (d : RelDoc) (h : fsGet id db = none) :
    fsGet id (db ++ [(id, d)]) = some d := by
  induction db with
  | nil => simp [fsGet]
  | cons q rest ih =>
      rcases q with ⟨k, v⟩
      unfold fsGet at h
      rw [List.cons_append]
      unfold fsGet
      by_cases hk : k = id
      · rw [if_pos hk] at h
        exact absurd h (by simp)
      · rw [if_neg hk] at h
        rw [if_neg hk]
        exact ih h

/-- C7. `save_entity_relationship` is keyed by a deterministic digest of
`(entity_a, entity_b, relationship_type)`: two calls with the same triple but
different strengths and article ids produce exactly one stored record for
that key, whose strength is the most recent value and whose articles are the
union of the contributed article ids. -/
theorem c7_relationship_merge (md5hex : String → String) (now1 now2 : String)
    (db : List (String × RelDoc)) (a b rel : String) (s1 s2 : ℚ)
    (art1 art2 : String)
    (hfresh : fsGet (md5hex (a ++ ":" ++ b ++ ":" ++ rel)) db = none) :
    (save_entity_relationship md5hex now1 db a b rel s1 art1).1 =
      md5hex (a ++ ":" ++ b ++ ":" ++ rel) ∧
    (save_entity_relationship md5hex now2
        (save_entity_relationship md5hex now1 db a b rel s1 art1).2
        a b rel s2 art2).1 = md5hex (a ++ ":" ++ b ++ ":" ++ rel) ∧
    ((save_entity_relationship md5hex now2
        (save_entity_relationship md5hex now1 db a b rel s1 art1).2
        a b rel s2 art2).2).countP
      (fun p => p.1 == md5hex (a ++ ":" ++ b ++ ":" ++ rel)) = 1 ∧
    ∃ doc,
      fsGet (md5hex (a ++ ":" ++ b ++ ":" ++ rel))
        ((save_entity_relationship md5hex now2
          (save_entity_relationship md5hex now1 db a b rel s1 art1).2
          a b rel s2 art2).2) = some doc ∧
      doc.strength = s2 ∧
      (∀ x, x ∈ doc.articles ↔ x = art1 ∨ x = art2) := by
  have hid : (save_entity_relationship md5hex now1 db a b rel s1 art1).1 =
      md5hex (a ++ ":" ++ b ++ ":" ++ rel) := by
    simp only [save_entity_relationship]
    rw [hfresh]
  have hdb1 : (save_entity_relationship md5hex now1 db a b rel s1 art1).2 =
      db ++ [(md5hex (a ++ ":" ++ b ++ ":" ++ rel),
        { entity_a := a, entity_b := b, relationship_type := rel,
          strength := s1, articles := [art1],
          created_at := now1, updated_at := now1 })] := by
    simp only [save_entity_relationship]
    rw [hfresh]
  have hlook1 : fsGet (md5hex (a ++ ":" ++ b ++ ":" ++ rel))
      ((save_entity_relationship md5hex now1 db a b rel s1 art1).2) =
      some { entity_a := a, entity_b := b, relationship_type := rel,
             strength := s1, articles := [art1],
             created_at := now1, updated_at := now1 } := by
    rw [hdb1]
    exact fsGet_append_fresh _ hfresh
  have hdb2 : (save_entity_relationship md5hex now2
      (save_entity_relationship md5hex now1 db a b rel s1 art1).2
      a b rel s2 art2).2 =
      ((save_entity_relationship md5hex now1 db a b rel s1 art1).2).map
        (fun p => if p.1 = md5hex (a ++ ":" ++ b ++ ":" ++ rel) then
          (p.1, { p.2 with
                    strength := s2
                    articles := arrayUnion p.2.articles art2
                    updated_at := now2 })
          else p) := by
    have hgen : ∀ db1 d1, fsGet (md5hex (a ++ ":" ++ b ++ ":" ++ rel)) db1 = some d1 →
        (save_entity_relationship md5hex now2 db1 a b rel s2 art2).2 =
          db1.map (fun p => if p.1 = md5hex (a ++ ":" ++ b ++ ":" ++ rel) then
            (p.1, { p.2 with
                      strength := s2
                      articles := arrayUnion p.2.articles art2
                      updated_at := now2 })
            else p) := by
      intro db1 d1 h1
      simp only [save_entity_relationship]
      rw [h1]
    exact hgen _ _ hlook1
  have hpres : ∀ p ∈ db,
      (fun p : String × RelDoc =>
        if p.1 = md5hex (a ++ ":" ++ b ++ ":" ++ rel) then
          (p.1, { p.2 with
                    strength := s2
                    articles := arrayUnion p.2.articles art2
                    updated_at := now2 })
        else p) p = p := by
    intro p hp
    simp only
    rw [if_neg (fsGet_none_key_ne hfresh p hp)]
  have hdb2s : (save_entity_relationship md5hex now2
      (save_entity_relationship md5hex now1 db a b rel s1 art1).2
      a b rel s2 art2).2 =
      db ++ [(md5hex (a ++ ":" ++ b ++ ":" ++ rel),
        { entity_a := a, entity_b := b, relationship_type := rel,
          strength := s2, articles := arrayUnion [art1] art2,
          created_at := now1, updated_at := now2 })] := by
    rw [hdb2, hdb1, List.map_append]
    congr 1
    · rw [List.map_congr_left hpres]
      exact List.map_id _
    · simp
  refine ⟨hid, ?_, ?_, ?_⟩
  · have hgen1 : ∀ db1 d1, fsGet (md5hex (a ++ ":" ++ b ++ ":" ++ rel)) db1 = some d1 →
        (save_entity_relationship md5hex now2 db1 a b rel s2 art2).1 =
          md5hex (a ++ ":" ++ b ++ ":" ++ rel) := by
      intro db1 d1 h1
      simp only [save_entity_relationship]
      rw [h1]
    exact hgen1 _ _ hlook1
  · rw [hdb2s, List.countP_append]
    have h0 : db.countP (fun p => p.1 == md5hex (a ++ ":" ++ b ++ ":" ++ rel)) = 0 := by
      rw [List.countP_eq_zero]
      intro p hp
      simpa using fsGet_none_key_ne hfresh p hp
    rw [h0]
    simp [List.countP_cons]
  · have hdoc : fsGet (md5hex (a ++ ":" ++ b ++ ":" ++ rel))
        ((save_entity_relationship md5hex now2
          (save_entity_relationship md5hex now1 db a b rel s1 art1).2
          a b rel s2 art2).2) =
        some { entity_a := a, entity_b := b, relationship_type := rel,
               strength := s2, articles := arrayUnion [art1] art2,
               created_at := now1, updated_at := now2 } := by
      rw [hdb2s]
      exact fsGet_append_fresh _ hfresh
    refine ⟨_, hdoc, rfl, ?_⟩
    intro x
    show x ∈ arrayUnion [art1] art2 ↔ x = art1 ∨ x = art2
    unfold arrayUnion
    by_cases hmem : art2 ∈ [art1]
    · rw [if_pos hmem]
      have h21 : art2 = art1 := by simpa using hmem
      simp [h21]
    · rw [if_neg hmem]
      simp [List.mem_append, or_comm]

/-- Witness for C7: two saves of `(Apple, Microsoft, mentioned_with)` with
strengths `1/2` then `3/4` and article ids `artA`, `artB` on an empty
collection (digest function instantiated with a constant). -/
theorem c7_relationship_merge_witness :
    (save_entity_relationship (fun _ => "K") "t1" [] "Apple" "Microsoft"
      "mentioned_with" (1/2) "artA").1 = "K" ∧
    (save_entity_relationship (fun _ => "K") "t2"
        (save_entity_relationship (fun _ => "K") "t1" [] "Apple" "Microsoft"
          "mentioned_with" (1/2) "artA").2
        "Apple" "Microsoft" "mentioned_with" (3/4) "artB").1 = "K" ∧
    ((save_entity_relationship (fun _ => "K") "t2"
        (save_entity_relationship (fun _ => "K") "t1" [] "Apple" "Microsoft"
          "mentioned_with" (1/2) "artA").2
        "Apple" "Microsoft" "mentioned_with" (3/4) "artB").2).countP
      (fun p => p.1 == "K") = 1 ∧
    ∃ doc,
      fsGet "K"
        ((save_entity_relationship (fun _ => "K") "t2"
          (save_entity_relationship (fun _ => "K") "t1" [] "Apple" "Microsoft"
            "mentioned_with" (1/2) "artA").2
          "Apple" "Microsoft" "mentioned_with" (3/4) "artB").2) = some doc ∧
      doc.strength = 3/4 ∧
      (∀ x, x ∈ doc.articles ↔ x = "artA" ∨ x = "artB") :=
  c7_relationship_merge (fun _ => "K") "t1" "t2" [] "Apple" "Microsoft"
    "mentioned_with" (1/2) (3/4) "artA" "artB" rfl
